import Mathlib

/-!
Formal model of the transfer-ledger core of the repository
(`bank.py`, together with the auto-claim branch of `casino.py`).

The ledger is a JSON file holding a map from transfer codes to transfer
records plus an HMAC signature.  We embed the file contents, the
sign/save/load pipeline, the scoped-mutation accessor and the three
public operations (`create_transfer`, `claim_transfer`, `peek_transfer`)
as pure Lean functions over an explicit file state.

Modelling conventions:
* Python dicts become association lists (`List (String × Transfer)`)
  with first-occurrence lookup (`dictGet`) and replace-or-append update
  (`dictSet`), matching dict semantics; insertion order is preserved.
* The HMAC-SHA256 primitive from the standard library is an opaque
  parameter `hm : String → String → String` (key, message ↦ hex digest);
  every theorem is proved for an arbitrary such function.
* `secrets.token_hex(3)` draws three random bytes; the random source is
  a stream `bytes : Nat → ByteTriple`, indexed by loop iteration.
* `time.time()` is passed in as an abstract tick `now`.
* The `while True` code-generation loop is given explicit fuel; `none`
  in the first component of `create_transfer`'s result marks the
  (probabilistically impossible) case of the loop still running.
* The in-process `threading.Lock` serialises operations, so the
  sequential model applies operations one after another.
-/

/-- A transfer record, mirroring the dict stored under a code in
`bank.json` (`create_transfer`, bank.py lines 51-59).  The Python
`timestamp` is an abstract tick here. -/
structure Transfer where
  code : String
  from_app : String
  to_app : String
  user_id : String
  amount : Int
  timestamp : Nat
  claimed : Bool
deriving DecidableEq, Repr

/-- The error taxonomy of the core: each constructor corresponds to one
of the `ValueError`s raised in bank.py (`integrity` also covers the JSON
parse failure, which in Python is a `ValueError` subclass). -/
inductive BankError
  | integrity
  | invalidAmount
  | unknownCode
  | alreadyClaimed
  | destinationMismatch
  | userMismatch
deriving DecidableEq, Repr

/-- `dict.get(code)`: first-occurrence lookup in an association list. -/
def dictGet (c : String) : List (String × Transfer) → Option Transfer
  | [] => none
  | (k, v) :: rest => if k = c then some v else dictGet c rest

/-- `transfers[code] = value`: replace the binding if the key is
present, otherwise append (Python dict assignment). -/
def dictSet (c : String) (v : Transfer) : List (String × Transfer) → List (String × Transfer)
  | [] => [(c, v)]
  | (k, w) :: rest => if k = c then (k, v) :: rest else (k, w) :: dictSet c v rest

/-- The in-memory dict returned by `_load` / passed to `_save`:
`{'transfers': ...}`. -/
structure BankData where
  transfers : List (String × Transfer)
deriving DecidableEq

/-- State of the ledger file `bank.json` on disk: missing, unparseable
JSON, or a parsed payload `{'transfers': ..., 'signature': ...}`
(missing keys default to `{}` / `''`, which the `payload` constructor
subsumes). -/
inductive BankFile
  | absent
  | malformed
  | payload (transfers : List (String × Transfer)) (signature : String)
deriving DecidableEq

/-- The transfer set currently persisted: empty when there is no file,
and (for the purpose of stating frame conditions) empty for an
unparseable file. -/
def ledgerTransfers : BankFile → List (String × Transfer)
  | .payload ts _ => ts
  | _ => []

/-- JSON string literal (quoting only; the codes and app tags in this
program never need escaping). -/
def jsonString (s : String) : String := "\"" ++ s ++ "\""

/-- `json.dumps` of one transfer record with `sort_keys=True`: keys in
alphabetical order, default separators. -/
def transferJson (t : Transfer) : String :=
  "\x7b\"amount\": " ++ toString t.amount ++
  ", \"claimed\": " ++ (if t.claimed then "true" else "false") ++
  ", \"code\": " ++ jsonString t.code ++
  ", \"from_app\": " ++ jsonString t.from_app ++
  ", \"timestamp\": " ++ toString t.timestamp ++
  ", \"to_app\": " ++ jsonString t.to_app ++
  ", \"user_id\": " ++ jsonString t.user_id ++ "\x7d"

/-- The keys of the transfer map in sorted order, as `sort_keys=True`
enumerates them. -/
def sortedKeys (ts : List (String × Transfer)) : List String :=
  (ts.map Prod.fst).mergeSort (fun a b => decide (a ≤ b))

/-- `json.dumps({'transfers': transfers}, sort_keys=True)`: the
canonical serialization that is signed (bank.py line 15).  Keys are
sorted, so the result is independent of dict insertion order. -/
def canonicalJson (ts : List (String × Transfer)) : String :=
  "\x7b\"transfers\": \x7b" ++
  String.intercalate ", "
    ((sortedKeys ts).map (fun k =>
      jsonString k ++ ": " ++
      (match dictGet k ts with
       | some t => transferJson t
       | none => "null"))) ++
  "\x7d\x7d"

/-- `SECRET_KEY = b'shared-bank-secret'` (bank.py line 10). -/
def SECRET_KEY : String := "shared-bank-secret"

section Bank

-- `hm` is the opaque model of `hmac.new(key, data, hashlib.sha256).hexdigest()`.
variable (hm : String → String → String)

/-- `_sign` (bank.py lines 14-16): HMAC over the canonical serialization
of the transfer map only; the signature field is not an input. -/
def _sign (ts : List (String × Transfer)) : String :=
  hm SECRET_KEY (canonicalJson ts)

/-- `_save` (bank.py lines 18-22): recompute the signature from the
transfer set and write both together. -/
def _save (data : BankData) : BankFile :=
  .payload data.transfers (_sign hm data.transfers)

/-- `_load` (bank.py lines 24-33): initialize an empty ledger if the
file is absent, fail on unparseable JSON, verify the signature, and
return the data.  The second component is the file state after the call
(changed only by first-access initialization). -/
def _load (file : BankFile) : Except BankError (BankData × BankFile) :=
  let file₁ := if file = .absent then _save hm ⟨[]⟩ else file
  match file₁ with
  | .absent => .error .integrity
  | .malformed => .error .integrity
  | .payload ts sig =>
    if _sign hm ts = sig then .ok (⟨ts⟩, .payload ts sig) else .error .integrity

/-- `_access_bank` (bank.py lines 35-40): under the lock, load, run the
body on the data, and save on successful completion only; an error in
the body skips the save (the lock is released on every path). -/
def _access_bank {α : Type} (file : BankFile)
    (body : BankData → Except BankError (α × BankData)) :
    Except BankError α × BankFile :=
  match _load hm file with
  | .error e => (.error e, file)
  | .ok (bank, file₁) =>
    match body bank with
    | .error e => (.error e, file₁)
    | .ok (a, bank₁) => (.ok a, _save hm bank₁)

end Bank

/-- Three random bytes, as drawn by `secrets.token_hex(3)`. -/
abbrev ByteTriple := Fin 256 × Fin 256 × Fin 256

/-- Lower-case hexadecimal digit, as Python's `hex` formatting emits. -/
def hexChar (n : Nat) : Char :=
  if n < 10 then Char.ofNat (48 + n) else Char.ofNat (87 + n)

/-- The two hex characters of one byte. -/
def byteHexChars (b : Fin 256) : List Char :=
  [hexChar (b.val / 16), hexChar (b.val % 16)]

/-- The six characters of `secrets.token_hex(3)`. -/
def tokenHexChars (t : ByteTriple) : List Char :=
  byteHexChars t.1 ++ byteHexChars t.2.1 ++ byteHexChars t.2.2

/-- `secrets.token_hex(3).upper()` (bank.py line 48). -/
def tokenHexUpper (t : ByteTriple) : String :=
  ⟨(tokenHexChars t).map Char.toUpper⟩

/-- The `while True` candidate loop of `create_transfer` (bank.py lines
47-50): draw candidate `i`, accept it if unused, else retry, with
explicit fuel bounding the number of iterations modelled. -/
def genCode (bytes : Nat → ByteTriple) (transfers : List (String × Transfer)) :
    Nat → Nat → Option String
  | _, 0 => none
  | i, fuel + 1 =>
    let code := tokenHexUpper (bytes i)
    if dictGet code transfers = none then some code
    else genCode bytes transfers (i + 1) fuel

/-- The Python value supplied as `amount`: either an `int`, or any
non-`int` value (e.g. a float), for which `isinstance(amount, int)` is
`False`. -/
inductive Amount
  | int (i : Int)
  | nonInt
deriving DecidableEq, Repr

/-- Whether `isinstance(amount, int)` holds. -/
def Amount.isInt : Amount → Bool
  | .int _ => true
  | .nonInt => false

/-- The integer value of an `int` amount (junk value for non-ints,
which never reach an arithmetic use in the code). -/
def Amount.toInt : Amount → Int
  | .int i => i
  | .nonInt => 0

section BankOps

variable (hm : String → String → String)

/-- `create_transfer` (bank.py lines 42-60).  The amount guard runs
before any ledger access; inside the scoped mutation a fresh code is
generated and a new unclaimed record inserted, then saved.  The first
component is `none` when the generation loop exhausts its fuel. -/
def create_transfer (bytes : Nat → ByteTriple) (fuel : Nat) (user_id : String)
    (amount : Amount) (from_app to_app : String) (now : Nat) (file : BankFile) :
    Option (Except BankError String) × BankFile :=
  if amount.isInt = false ∨ amount.toInt ≤ 0 then
    (some (.error .invalidAmount), file)
  else
    match _load hm file with
    | .error e => (some (.error e), file)
    | .ok (bank, file₁) =>
      match genCode bytes bank.transfers 0 fuel with
      | none => (none, file₁)
      | some code =>
        (some (.ok code),
         _save hm ⟨dictSet code
           { code := code, from_app := from_app, to_app := to_app,
             user_id := user_id, amount := amount.toInt, timestamp := now,
             claimed := false } bank.transfers⟩)

/-- `claim_transfer` (bank.py lines 62-74): inside one scoped mutation,
look up the code, check claimed/destination/user in that order, then
mark claimed and return the amount (the save happens on the successful
return path only). -/
def claim_transfer (code expect_to_app user_id : String) (file : BankFile) :
    Except BankError Int × BankFile :=
  _access_bank hm file (fun bank =>
    match dictGet code bank.transfers with
    | none => .error .unknownCode
    | some t =>
      if t.claimed then .error .alreadyClaimed
      else if t.to_app ≠ expect_to_app then .error .destinationMismatch
      else if t.user_id ≠ user_id then .error .userMismatch
      else .ok (t.amount, ⟨dictSet code { t with claimed := true } bank.transfers⟩))

/-- `peek_transfer` (bank.py lines 76-79): load under the lock (no save
of any mutation) and return the looked-up record, or `none`. -/
def peek_transfer (code : String) (file : BankFile) :
    Except BankError (Option Transfer) × BankFile :=
  match _load hm file with
  | .error e => (.error e, file)
  | .ok (bank, file₁) => (.ok (dictGet code bank.transfers), file₁)

end BankOps

/-- One invocation of a public bank operation, with its inputs. -/
inductive Op
  | create (bytes : Nat → ByteTriple) (fuel : Nat) (user_id : String)
      (amount : Amount) (from_app to_app : String) (now : Nat)
  | claim (code expect_to_app user_id : String)
  | peek (code : String)

/-- The ledger file after running one operation. -/
def applyOp (hm : String → String → String) : Op → BankFile → BankFile
  | .create bytes fuel u a fr tp now, f => (create_transfer hm bytes fuel u a fr tp now f).2
  | .claim c e u, f => (claim_transfer hm c e u f).2
  | .peek c, f => (peek_transfer hm c f).2

/-- The ledger file after running a sequence of operations. -/
def runOps (hm : String → String → String) (ops : List Op) (f : BankFile) : BankFile :=
  ops.foldl (fun f op => applyOp hm op f) f

/-- A ledger file that `_load` accepts: a payload whose stored
signature matches the recomputed one. -/
def validFile (hm : String → String → String) (f : BankFile) : Prop :=
  ∃ ts, f = .payload ts (_sign hm ts)

/-- A Python runtime value, as far as the casino's auto-claim branch
needs: ints, strings and 2-tuples. -/
inductive PyVal
  | int (i : Int)
  | str (s : String)
  | pair (a b : PyVal)
deriving DecidableEq, Repr

/-- Python tuple unpacking `a, b = v`: succeeds only on a 2-tuple;
on any other value (in particular an `int`) it raises `TypeError`,
modelled as `none`. -/
def unpack2 : PyVal → Option (PyVal × PyVal)
  | .pair a b => some (a, b)
  | _ => none

/-- The auto-claim branch of `casino.py` `main` (lines 167-175):
`amount, from_app = bank.claim_transfer(code, expect_to_app="casino",
user_id=user)` inside `try`; on any exception the wallet is left alone,
otherwise the wallet is credited.  The unpacking of the call's result
is part of the guarded statement. -/
def casinoAutoclaim (hm : String → String → String)
    (code user_id : String) (wallet : Int) (file : BankFile) : Int × BankFile :=
  match claim_transfer hm code "casino" user_id file with
  | (.error _, f₁) => (wallet, f₁)
  | (.ok amount, f₁) =>
    match unpack2 (.int amount) with
    | none => (wallet, f₁)
    | some (a, _) =>
      match a with
      | .int i => (wallet + i, f₁)
      | _ => (wallet, f₁)

/-! ### Helper lemmas about the dict model -/

theorem Transfer.eta_claimed (t : Transfer) : { t with claimed := t.claimed } = t := rfl

theorem dictGet_dictSet_self (c : String) (v : Transfer) (ts : List (String × Transfer)) :
    dictGet c (dictSet c v ts) = some v := by
  induction ts with
  | nil => simp [dictGet, dictSet]
  | cons p rest ih =>
    obtain ⟨k, w⟩ := p
    by_cases h : k = c
    · simp [dictGet, dictSet, h]
    · simp [dictGet, dictSet, h, ih]

theorem dictGet_dictSet_ne (c c' : String) (v : Transfer) (ts : List (String × Transfer))
    (h : c' ≠ c) : dictGet c' (dictSet c v ts) = dictGet c' ts := by
  have hcc : (c = c') = False := eq_false (fun h' => h h'.symm)
  induction ts with
  | nil => simp [dictGet, dictSet, hcc]
  | cons p rest ih =>
    obtain ⟨k, w⟩ := p
    by_cases hk : k = c
    · subst hk
      simp [dictGet, dictSet, hcc]
    · simp [dictGet, dictSet, hk, ih]

/-! ### Helper lemmas about `_load` -/

theorem _load_absent (hm : String → String → String) :
    _load hm .absent = .ok (⟨[]⟩, .payload [] (_sign hm [])) := by
  simp [_load, _save]

theorem _load_malformed (hm : String → String → String) :
    _load hm .malformed = .error .integrity := by
  simp [_load]

theorem _load_payload_ok (hm : String → String → String) (ts : List (String × Transfer))
    (sig : String) (h : _sign hm ts = sig) :
    _load hm (.payload ts sig) = .ok (⟨ts⟩, .payload ts sig) := by
  simp [_load, h]

theorem _load_payload_err (hm : String → String → String) (ts : List (String × Transfer))
    (sig : String) (h : _sign hm ts ≠ sig) :
    _load hm (.payload ts sig) = .error .integrity := by
  simp [_load, h]

/-- Whenever `_load` succeeds, the data it returns is the persisted
transfer set, and the post-call file persists exactly that set. -/
theorem _load_ok_inv (hm : String → String → String) (f : BankFile) (bank : BankData)
    (f₁ : BankFile) (h : _load hm f = .ok (bank, f₁)) :
    bank.transfers = ledgerTransfers f ∧ ledgerTransfers f₁ = ledgerTransfers f := by
  cases f with
  | absent =>
    rw [_load_absent] at h
    cases h
    exact ⟨rfl, rfl⟩
  | malformed => rw [_load_malformed] at h; cases h
  | payload ts sig =>
    by_cases hs : _sign hm ts = sig
    · rw [_load_payload_ok hm ts sig hs] at h
      cases h
      exact ⟨rfl, rfl⟩
    · rw [_load_payload_err hm ts sig hs] at h
      cases h

/-! ### Helper lemmas about code generation and formatting -/

theorem genCode_fresh (bytes : Nat → ByteTriple) (transfers : List (String × Transfer)) :
    ∀ (fuel i : Nat) (code : String), genCode bytes transfers i fuel = some code →
      dictGet code transfers = none := by
  intro fuel
  induction fuel with
  | zero => intro i code h; simp [genCode] at h
  | succ n ih =>
    intro i code h
    simp only [genCode] at h
    by_cases hf : dictGet (tokenHexUpper (bytes i)) transfers = none
    · rw [if_pos hf] at h
      cases h
      exact hf
    · rw [if_neg hf] at h
      exact ih (i + 1) code h

theorem genCode_finds (bytes : Nat → ByteTriple) (transfers : List (String × Transfer)) :
    ∀ (fuel s j : Nat), s ≤ j → j < s + fuel →
      dictGet (tokenHexUpper (bytes j)) transfers = none →
      (∀ i, s ≤ i → i < j → dictGet (tokenHexUpper (bytes i)) transfers ≠ none) →
      genCode bytes transfers s fuel = some (tokenHexUpper (bytes j)) := by
  intro fuel
  induction fuel with
  | zero => intro s j h₁ h₂ _ _; omega
  | succ n ih =>
    intro s j h₁ h₂ hj hmin
    simp only [genCode]
    by_cases hs : dictGet (tokenHexUpper (bytes s)) transfers = none
    · rw [if_pos hs]
      rcases Nat.eq_or_lt_of_le h₁ with h | h
      · rw [h]
      · exact absurd hs (hmin s le_rfl h)
    · rw [if_neg hs]
      have hsj : s ≠ j := fun h => hs (h ▸ hj)
      exact ih (s + 1) j (by omega) (by omega) hj (fun i hi₁ hi₂ => hmin i (by omega) hi₂)

/-- An upper-case hexadecimal character, the format the spec promises
for generated codes. -/
def isUpperHexChar (c : Char) : Bool :=
  (('0' ≤ c) && (c ≤ '9')) || (('A' ≤ c) && (c ≤ 'F'))

theorem isUpperHexChar_hexChar : ∀ n : Fin 16, isUpperHexChar ((hexChar n.val).toUpper) = true := by
  decide

theorem isUpperHexChar_hexChar_lt (m : Nat) (hm : m < 16) :
    isUpperHexChar ((hexChar m).toUpper) = true :=
  isUpperHexChar_hexChar ⟨m, hm⟩

theorem tokenHexUpper_length (t : ByteTriple) : (tokenHexUpper t).length = 6 := by
  simp [tokenHexUpper, tokenHexChars, byteHexChars, String.length]

theorem tokenHexUpper_chars (t : ByteTriple) :
    ∀ c ∈ (tokenHexUpper t).data, isUpperHexChar c = true := by
  intro c hc
  simp only [tokenHexUpper, List.mem_map] at hc
  obtain ⟨x, hx, rfl⟩ := hc
  obtain ⟨b₁, b₂, b₃⟩ := t
  simp only [tokenHexChars, byteHexChars, List.append_assoc, List.mem_append,
    List.mem_cons, List.mem_singleton, List.not_mem_nil, or_false] at hx
  rcases hx with (h | h) | (h | h) | (h | h) <;> subst h <;>
    exact isUpperHexChar_hexChar_lt _ (by omega)

/-! ### Order-independence of the canonical serialization -/

theorem sortedKeys_perm {ts ts' : List (String × Transfer)} (h : ts.Perm ts') :
    sortedKeys ts = sortedKeys ts' := by
  haveI : IsAntisymm String (fun a b => a ≤ b) := ⟨fun _ _ h₁ h₂ => le_antisymm h₁ h₂⟩
  apply List.eq_of_perm_of_sorted (r := fun a b : String => a ≤ b)
  · exact (List.mergeSort_perm _ _).trans ((h.map Prod.fst).trans (List.mergeSort_perm _ _).symm)
  all_goals
    refine List.Pairwise.imp (fun hab => of_decide_eq_true hab) ?_
    refine List.sorted_mergeSort ?_ ?_ _
    · intro a b c hab hbc
      simp only [decide_eq_true_eq] at *
      exact le_trans hab hbc
    · intro a b
      simp only [Bool.or_eq_true, decide_eq_true_eq]
      exact le_total a b

theorem dictGet_perm {ts ts' : List (String × Transfer)} (h : ts.Perm ts') :
    (ts.map Prod.fst).Nodup → ∀ c, dictGet c ts = dictGet c ts' := by
  induction h with
  | nil => intro _ c; rfl
  | cons x p ih =>
    intro nd c
    obtain ⟨k, v⟩ := x
    simp only [List.map_cons, List.nodup_cons] at nd
    simp only [dictGet]
    by_cases hk : k = c
    · simp [hk]
    · simp [hk, ih nd.2 c]
  | swap x y l =>
    intro nd c
    obtain ⟨k₁, v₁⟩ := x
    obtain ⟨k₂, v₂⟩ := y
    have hne : k₂ ≠ k₁ := by
      simp only [List.map_cons, List.nodup_cons, List.mem_cons] at nd
      exact fun hh => nd.1 (Or.inl hh)
    by_cases h₁ : k₁ = c <;> by_cases h₂ : k₂ = c
    · exact absurd (h₂.trans h₁.symm) hne
    · simp [dictGet, h₁, h₂]
    · simp [dictGet, h₁, h₂]
    · simp [dictGet, h₁, h₂]
  | trans p₁ p₂ ih₁ ih₂ =>
    intro nd c
    have nd₂ := ((p₁.map Prod.fst).nodup_iff).mp nd
    exact (ih₁ nd c).trans (ih₂ nd₂ c)

theorem canonicalJson_perm {ts ts' : List (String × Transfer)} (h : ts.Perm ts')
    (nd : (ts.map Prod.fst).Nodup) : canonicalJson ts = canonicalJson ts' := by
  have hget : ∀ k, dictGet k ts = dictGet k ts' := dictGet_perm h nd
  unfold canonicalJson
  rw [sortedKeys_perm h]
  have hmap : (sortedKeys ts').map (fun k =>
        jsonString k ++ ": " ++
        (match dictGet k ts with
         | some t => transferJson t
         | none => "null"))
      = (sortedKeys ts').map (fun k =>
        jsonString k ++ ": " ++
        (match dictGet k ts' with
         | some t => transferJson t
         | none => "null")) :=
    List.map_congr_left (fun k _ => by rw [hget k])
  rw [hmap]

theorem _sign_perm (hm : String → String → String) {ts ts' : List (String × Transfer)}
    (h : ts.Perm ts') (nd : (ts.map Prod.fst).Nodup) : _sign hm ts = _sign hm ts' := by
  unfold _sign
  rw [canonicalJson_perm h nd]

/-! ### Frame lemmas for the three operations -/

theorem ledgerTransfers_save (hm : String → String → String) (d : BankData) :
    ledgerTransfers (_save hm d) = d.transfers := rfl

theorem _load_ok_file (hm : String → String → String) (f : BankFile) (bank : BankData)
    (f₁ : BankFile) (h : _load hm f = .ok (bank, f₁)) : f ≠ .absent → f₁ = f := by
  intro hne
  cases f with
  | absent => exact absurd rfl hne
  | malformed => rw [_load_malformed] at h; cases h
  | payload ts sig =>
    by_cases hs : _sign hm ts = sig
    · rw [_load_payload_ok hm ts sig hs] at h
      cases h
      rfl
    · rw [_load_payload_err hm ts sig hs] at h
      cases h

theorem peek_transfer_file (hm : String → String → String) (code : String) (f : BankFile) :
    ledgerTransfers (peek_transfer hm code f).2 = ledgerTransfers f := by
  unfold peek_transfer
  cases hload : _load hm f with
  | error e => rfl
  | ok p =>
    obtain ⟨bank, f₁⟩ := p
    exact (_load_ok_inv hm f bank f₁ hload).2

theorem claim_transfer_cases (hm : String → String → String) (c e u : String) (f : BankFile) :
    (∃ err f₁, claim_transfer hm c e u f = (.error err, f₁) ∧
        ledgerTransfers f₁ = ledgerTransfers f ∧ (f ≠ .absent → f₁ = f)) ∨
    (∃ t, dictGet c (ledgerTransfers f) = some t ∧ t.claimed = false ∧
        t.to_app = e ∧ t.user_id = u ∧
        claim_transfer hm c e u f =
          (.ok t.amount, _save hm ⟨dictSet c { t with claimed := true } (ledgerTransfers f)⟩)) := by
  unfold claim_transfer _access_bank
  cases hload : _load hm f with
  | error err => exact Or.inl ⟨err, f, rfl, rfl, fun _ => rfl⟩
  | ok p =>
    obtain ⟨bank, f₁⟩ := p
    obtain ⟨hb, hf₁⟩ := _load_ok_inv hm f bank f₁ hload
    have hfile := _load_ok_file hm f bank f₁ hload
    cases hget : dictGet c bank.transfers with
    | none => exact Or.inl ⟨.unknownCode, f₁, by simp [hget], hf₁, hfile⟩
    | some t =>
      by_cases hcl : t.claimed
      · exact Or.inl ⟨.alreadyClaimed, f₁, by simp [hget, hcl], hf₁, hfile⟩
      · by_cases hto : t.to_app = e
        · by_cases hu : t.user_id = u
          · refine Or.inr ⟨t, hb ▸ hget, eq_false_of_ne_true hcl, hto, hu, ?_⟩
            rw [← hb]
            simp [hget, hcl, hto, hu]
          · exact Or.inl ⟨.userMismatch, f₁, by simp [hget, hcl, hto, hu], hf₁, hfile⟩
        · exact Or.inl ⟨.destinationMismatch, f₁, by simp [hget, hcl, hto], hf₁, hfile⟩

theorem create_transfer_cases (hm : String → String → String) (bytes : Nat → ByteTriple)
    (fuel : Nat) (u : String) (a : Amount) (fr tp : String) (now : Nat) (f : BankFile) :
    (ledgerTransfers (create_transfer hm bytes fuel u a fr tp now f).2 = ledgerTransfers f) ∨
    (∃ code, dictGet code (ledgerTransfers f) = none ∧
        (create_transfer hm bytes fuel u a fr tp now f).2 =
          _save hm ⟨dictSet code
            { code := code, from_app := fr, to_app := tp, user_id := u,
              amount := a.toInt, timestamp := now, claimed := false }
            (ledgerTransfers f)⟩) := by
  unfold create_transfer
  by_cases hval : a.isInt = false ∨ a.toInt ≤ 0
  · rw [if_pos hval]
    exact Or.inl rfl
  · rw [if_neg hval]
    cases hload : _load hm f with
    | error e => exact Or.inl rfl
    | ok p =>
      obtain ⟨bank, f₁⟩ := p
      obtain ⟨hb, hf₁⟩ := _load_ok_inv hm f bank f₁ hload
      dsimp only
      cases hgen : genCode bytes bank.transfers 0 fuel with
      | none => exact Or.inl hf₁
      | some code =>
        refine Or.inr ⟨code, hb ▸ genCode_fresh bytes bank.transfers fuel 0 code hgen, ?_⟩
        rw [← hb]

/-! ### Preservation of ledger entries across operations -/

theorem dictGet_applyOp (hm : String → String → String) (op : Op) (f : BankFile)
    (c : String) (t : Transfer) (h : dictGet c (ledgerTransfers f) = some t) :
    ∃ b : Bool, dictGet c (ledgerTransfers (applyOp hm op f)) = some { t with claimed := b } ∧
      (t.claimed = true → b = true) := by
  cases op with
  | peek code =>
    refine ⟨t.claimed, ?_, fun h' => h'⟩
    rw [applyOp, peek_transfer_file, Transfer.eta_claimed]
    exact h
  | claim c₀ e u =>
    rcases claim_transfer_cases hm c₀ e u f with
      ⟨err, f₁, heq, hled, _⟩ | ⟨t₀, hget, hcl, _, _, heq⟩
    · refine ⟨t.claimed, ?_, fun h' => h'⟩
      rw [applyOp, heq]
      rw [hled, Transfer.eta_claimed]
      exact h
    · by_cases hcc : c = c₀
      · subst hcc
        rw [h] at hget
        cases hget
        refine ⟨true, ?_, fun _ => rfl⟩
        rw [applyOp, heq, ledgerTransfers_save]
        exact dictGet_dictSet_self c _ _
      · refine ⟨t.claimed, ?_, fun h' => h'⟩
        rw [applyOp, heq, ledgerTransfers_save]
        rw [dictGet_dictSet_ne c₀ c _ _ hcc, Transfer.eta_claimed]
        exact h
  | create bytes fuel u a fr tp now =>
    rcases create_transfer_cases hm bytes fuel u a fr tp now f with hled | ⟨code, hfresh, heq⟩
    · refine ⟨t.claimed, ?_, fun h' => h'⟩
      rw [applyOp, hled, Transfer.eta_claimed]
      exact h
    · have hcc : c ≠ code := fun hc => by rw [hc, hfresh] at h; cases h
      refine ⟨t.claimed, ?_, fun h' => h'⟩
      rw [applyOp, heq, ledgerTransfers_save]
      rw [dictGet_dictSet_ne code c _ _ hcc, Transfer.eta_claimed]
      exact h

theorem runOps_cons (hm : String → String → String) (op : Op) (ops : List Op) (f : BankFile) :
    runOps hm (op :: ops) f = runOps hm ops (applyOp hm op f) := rfl

theorem dictGet_runOps (hm : String → String → String) (ops : List Op) (f : BankFile)
    (c : String) (t : Transfer) (h : dictGet c (ledgerTransfers f) = some t) :
    ∃ b : Bool, dictGet c (ledgerTransfers (runOps hm ops f)) = some { t with claimed := b } ∧
      (t.claimed = true → b = true) := by
  induction ops generalizing f t with
  | nil =>
    refine ⟨t.claimed, ?_, fun h' => h'⟩
    rw [Transfer.eta_claimed]
    exact h
  | cons op rest ih =>
    obtain ⟨b, hb, hmono⟩ := dictGet_applyOp hm op f c t h
    obtain ⟨b', hb', hmono'⟩ := ih (applyOp hm op f) _ hb
    refine ⟨b', ?_, fun hc => hmono' (hmono hc)⟩
    rw [runOps_cons]
    exact hb'

/-! ### Direct reduction of `claim_transfer` on a validly signed file -/

theorem claim_transfer_eq (hm : String → String → String) (c e u : String)
    (ts : List (String × Transfer)) :
    claim_transfer hm c e u (.payload ts (_sign hm ts)) =
      match dictGet c ts with
      | none => (.error .unknownCode, .payload ts (_sign hm ts))
      | some t =>
        if t.claimed then (.error .alreadyClaimed, .payload ts (_sign hm ts))
        else if t.to_app ≠ e then (.error .destinationMismatch, .payload ts (_sign hm ts))
        else if t.user_id ≠ u then (.error .userMismatch, .payload ts (_sign hm ts))
        else (.ok t.amount, _save hm ⟨dictSet c { t with claimed := true } ts⟩) := by
  unfold claim_transfer _access_bank
  rw [_load_payload_ok hm ts _ rfl]
  dsimp only
  cases dictGet c ts with
  | none => rfl
  | some t =>
    by_cases hcl : t.claimed <;> by_cases hto : t.to_app ≠ e <;> by_cases hu : t.user_id ≠ u <;>
      simp [hcl, hto, hu]

/-! ### Shape and validity of files produced by the operations -/

theorem _load_ok_shape (hm : String → String → String) (f : BankFile) (bank : BankData)
    (f₁ : BankFile) (h : _load hm f = .ok (bank, f₁)) :
    f₁ = f ∨ f₁ = _save hm ⟨[]⟩ := by
  cases f with
  | absent =>
    rw [_load_absent] at h
    cases h
    exact Or.inr rfl
  | malformed => rw [_load_malformed] at h; cases h
  | payload ts sig => exact Or.inl (_load_ok_file hm _ bank f₁ h (by simp))

theorem applyOp_file_shape (hm : String → String → String) (op : Op) (f : BankFile) :
    applyOp hm op f = f ∨ ∃ d, applyOp hm op f = _save hm d := by
  cases op with
  | peek code =>
    rw [applyOp]
    unfold peek_transfer
    cases hload : _load hm f with
    | error e => exact Or.inl rfl
    | ok p =>
      obtain ⟨bank, f₁⟩ := p
      rcases _load_ok_shape hm f bank f₁ hload with h | h
      · exact Or.inl h
      · exact Or.inr ⟨⟨[]⟩, h⟩
  | claim c e u =>
    rw [applyOp]
    unfold claim_transfer _access_bank
    cases hload : _load hm f with
    | error err => exact Or.inl rfl
    | ok p =>
      obtain ⟨bank, f₁⟩ := p
      dsimp only
      rcases _load_ok_shape hm f bank f₁ hload with h | h
      · cases hget : dictGet c bank.transfers with
        | none => exact Or.inl h
        | some t =>
          by_cases hcl : t.claimed <;> by_cases hto : t.to_app ≠ e <;>
            by_cases hu : t.user_id ≠ u <;> simp [hcl, hto, hu, h]
      · cases hget : dictGet c bank.transfers with
        | none => exact Or.inr ⟨⟨[]⟩, h⟩
        | some t =>
          by_cases hcl : t.claimed <;> by_cases hto : t.to_app ≠ e <;>
            by_cases hu : t.user_id ≠ u <;> simp [hcl, hto, hu, h]
  | create bytes fuel u a fr tp now =>
    rw [applyOp]
    unfold create_transfer
    by_cases hval : a.isInt = false ∨ a.toInt ≤ 0
    · rw [if_pos hval]
      exact Or.inl rfl
    · rw [if_neg hval]
      cases hload : _load hm f with
      | error e => exact Or.inl rfl
      | ok p =>
        obtain ⟨bank, f₁⟩ := p
        dsimp only
        cases hgen : genCode bytes bank.transfers 0 fuel with
        | none =>
          rcases _load_ok_shape hm f bank f₁ hload with h | h
          · exact Or.inl h
          · exact Or.inr ⟨⟨[]⟩, h⟩
        | some code => exact Or.inr ⟨_, rfl⟩

theorem validFile_applyOp (hm : String → String → String) (op : Op) (f : BankFile)
    (hf : validFile hm f) : validFile hm (applyOp hm op f) := by
  rcases applyOp_file_shape hm op f with h | ⟨d, h⟩
  · rw [h]; exact hf
  · rw [h]; exact ⟨d.transfers, rfl⟩

theorem validFile_runOps (hm : String → String → String) (ops : List Op) (f : BankFile)
    (hf : validFile hm f) : validFile hm (runOps hm ops f) := by
  induction ops generalizing f with
  | nil => exact hf
  | cons op rest ih => exact ih (applyOp hm op f) (validFile_applyOp hm op f hf)

/-! ### Claim theorems -/

/-- C2: if the stored signature of a persisted ledger differs from the
HMAC recomputed over its transfer set, `Load` fails with an integrity
error instead of returning data; the error propagates through
`claim_transfer` and `peek_transfer` with no repair (the file is left
untouched), and an unparseable ledger file behaves identically. -/
theorem load_integrity_error (hm : String → String → String)
    (ts : List (String × Transfer)) (sig : String) (code expect uid : String)
    (h : _sign hm ts ≠ sig) :
    _load hm (.payload ts sig) = .error .integrity ∧
    _load hm .malformed = .error .integrity ∧
    claim_transfer hm code expect uid (.payload ts sig) =
      (.error .integrity, .payload ts sig) ∧
    peek_transfer hm code (.payload ts sig) = (.error .integrity, .payload ts sig) ∧
    claim_transfer hm code expect uid .malformed = (.error .integrity, .malformed) ∧
    peek_transfer hm code .malformed = (.error .integrity, .malformed) := by
  refine ⟨_load_payload_err hm ts sig h, _load_malformed hm, ?_, ?_, ?_, ?_⟩
  · unfold claim_transfer _access_bank
    rw [_load_payload_err hm ts sig h]
  · unfold peek_transfer
    rw [_load_payload_err hm ts sig h]
  · unfold claim_transfer _access_bank
    rw [_load_malformed]
  · unfold peek_transfer
    rw [_load_malformed]

theorem load_integrity_error_witness :
    _load (fun _ _ => "h") (.payload [] "x") = .error .integrity ∧
    _load (fun _ _ => "h") .malformed = .error .integrity ∧
    claim_transfer (fun _ _ => "h") "AB12CD" "fishing" "u1" (.payload [] "x") =
      (.error .integrity, .payload [] "x") ∧
    peek_transfer (fun _ _ => "h") "AB12CD" (.payload [] "x") =
      (.error .integrity, .payload [] "x") ∧
    claim_transfer (fun _ _ => "h") "AB12CD" "fishing" "u1" .malformed =
      (.error .integrity, .malformed) ∧
    peek_transfer (fun _ _ => "h") "AB12CD" .malformed =
      (.error .integrity, .malformed) :=
  load_integrity_error (fun _ _ => "h") [] "x" "AB12CD" "fishing" "u1" (by decide)

/-- C3: on a validly signed ledger, `claim_transfer` fails with
`UnknownCode` when the code is absent, `AlreadyClaimed` when the
transfer is claimed, `DestinationMismatch` when `to_app` differs, and
`UserMismatch` when `user_id` differs — in each case with the persisted
file completely unchanged; moreover, any failing `claim_transfer` on
any file leaves the persisted transfer set unchanged, and leaves the
file itself unchanged whenever it exists. -/
theorem claim_transfer_failure_taxonomy (hm : String → String → String)
    (ts : List (String × Transfer)) (code expect uid : String) :
    (dictGet code ts = none →
      claim_transfer hm code expect uid (.payload ts (_sign hm ts)) =
        (.error .unknownCode, .payload ts (_sign hm ts))) ∧
    (∀ t, dictGet code ts = some t → t.claimed = true →
      claim_transfer hm code expect uid (.payload ts (_sign hm ts)) =
        (.error .alreadyClaimed, .payload ts (_sign hm ts))) ∧
    (∀ t, dictGet code ts = some t → t.claimed = false → t.to_app ≠ expect →
      claim_transfer hm code expect uid (.payload ts (_sign hm ts)) =
        (.error .destinationMismatch, .payload ts (_sign hm ts))) ∧
    (∀ t, dictGet code ts = some t → t.claimed = false → t.to_app = expect →
        t.user_id ≠ uid →
      claim_transfer hm code expect uid (.payload ts (_sign hm ts)) =
        (.error .userMismatch, .payload ts (_sign hm ts))) ∧
    (∀ (f : BankFile) (err : BankError),
      (claim_transfer hm code expect uid f).1 = .error err →
        ledgerTransfers (claim_transfer hm code expect uid f).2 = ledgerTransfers f ∧
        (f ≠ .absent → (claim_transfer hm code expect uid f).2 = f)) := by
  refine ⟨?_, ?_, ?_, ?_, ?_⟩
  · intro hnone
    rw [claim_transfer_eq, hnone]
  · intro t hget hcl
    rw [claim_transfer_eq, hget]
    simp [hcl]
  · intro t hget hcl hto
    rw [claim_transfer_eq, hget]
    simp [hcl, hto]
  · intro t hget hcl hto hu
    rw [claim_transfer_eq, hget]
    simp [hcl, hto, hu]
  · intro f err herr
    rcases claim_transfer_cases hm code expect uid f with
      ⟨err', f₁, heq, hled, hfile⟩ | ⟨t, _, _, _, _, heq⟩
    · rw [heq]
      exact ⟨hled, hfile⟩
    · rw [heq] at herr
      cases herr

theorem claim_transfer_failure_taxonomy_witness :
    claim_transfer (fun _ _ => "h") "ZZZZZZ" "fishing" "u1"
      (.payload [] (_sign (fun _ _ => "h") [])) =
      (.error .unknownCode, .payload [] (_sign (fun _ _ => "h") [])) ∧
    (claim_transfer (fun _ _ => "h") "ZZZZZZ" "fishing" "u1"
      (.payload [] (_sign (fun _ _ => "h") []))).2 =
      .payload [] (_sign (fun _ _ => "h") []) := by
  have h := claim_transfer_failure_taxonomy (fun _ _ => "h") [] "ZZZZZZ" "fishing" "u1"
  refine ⟨h.1 rfl, ?_⟩
  exact (h.2.2.2.2 _ .unknownCode (by rw [h.1 rfl])).2 (by simp)

/-- C6: for every amount that is not a positive integer — whether a
non-positive `int` or a non-`int` value — `create_transfer` fails with
`InvalidAmount` before any ledger access, leaving the file exactly as
it was (even an absent file is not initialized). -/
theorem create_transfer_invalid_amount (hm : String → String → String)
    (bytes : Nat → ByteTriple) (fuel : Nat) (user_id : String) (amount : Amount)
    (from_app to_app : String) (now : Nat) (file : BankFile)
    (h : amount.isInt = false ∨ amount.toInt ≤ 0) :
    create_transfer hm bytes fuel user_id amount from_app to_app now file =
      (some (.error .invalidAmount), file) := by
  unfold create_transfer
  rw [if_pos h]

theorem create_transfer_invalid_amount_witness :
    create_transfer (fun _ _ => "h") (fun _ => (0, 0, 0)) 1 "u1" (.int 0)
        "casino" "fishing" 0 .absent =
      (some (.error .invalidAmount), .absent) ∧
    create_transfer (fun _ _ => "h") (fun _ => (0, 0, 0)) 1 "u1" .nonInt
        "casino" "fishing" 0 .absent =
      (some (.error .invalidAmount), .absent) :=
  ⟨create_transfer_invalid_amount (fun _ _ => "h") (fun _ => (0, 0, 0)) 1 "u1"
      (.int 0) "casino" "fishing" 0 .absent (by decide),
   create_transfer_invalid_amount (fun _ _ => "h") (fun _ => (0, 0, 0)) 1 "u1"
      .nonInt "casino" "fishing" 0 .absent (by decide)⟩

/-- C9: when no ledger file exists, `Load` initializes and persists the
empty ledger — exactly what `Save` writes for the empty transfer set,
signed — returns it with no transfers in it, and the initialized state
passes the integrity check on a subsequent `Load`. -/
theorem load_first_access (hm : String → String → String) :
    _load hm .absent = .ok (⟨[]⟩, .payload [] (_sign hm [])) ∧
    _save hm ⟨[]⟩ = .payload [] (_sign hm []) ∧
    _load hm (.payload [] (_sign hm [])) = .ok (⟨[]⟩, .payload [] (_sign hm [])) ∧
    ∀ c, dictGet c ([] : List (String × Transfer)) = none :=
  ⟨_load_absent hm, rfl, _load_payload_ok hm [] _ rfl, fun _ => rfl⟩

/-- C10: `peek_transfer` returns the stored transfer when the code is
bound and `none` when it is not, goes through the integrity-checked
load path (propagating the integrity error on a corrupted or
unparseable ledger, with the file untouched), performs no save of any
mutation, and leaves the persisted transfer set unchanged on every
input file. -/
theorem peek_transfer_readonly (hm : String → String → String) (code : String) :
    (∀ ts, peek_transfer hm code (.payload ts (_sign hm ts)) =
        (.ok (dictGet code ts), .payload ts (_sign hm ts))) ∧
    (∀ ts sig, _sign hm ts ≠ sig →
        peek_transfer hm code (.payload ts sig) = (.error .integrity, .payload ts sig)) ∧
    peek_transfer hm code .malformed = (.error .integrity, .malformed) ∧
    (∀ f, ledgerTransfers (peek_transfer hm code f).2 = ledgerTransfers f) := by
  refine ⟨?_, ?_, ?_, peek_transfer_file hm code⟩
  · intro ts
    unfold peek_transfer
    rw [_load_payload_ok hm ts _ rfl]
  · intro ts sig hs
    unfold peek_transfer
    rw [_load_payload_err hm ts sig hs]
  · unfold peek_transfer
    rw [_load_malformed]

theorem peek_transfer_readonly_witness :
    peek_transfer (fun _ _ => "h") "AB12CD"
      (.payload [] (_sign (fun _ _ => "h") [])) =
      (.ok none, .payload [] (_sign (fun _ _ => "h") [])) ∧
    peek_transfer (fun _ _ => "h") "AB12CD" (.payload [] "x") =
      (.error .integrity, .payload [] "x") ∧
    ledgerTransfers (peek_transfer (fun _ _ => "h") "AB12CD" .absent).2 =
      ledgerTransfers (.absent : BankFile) := by
  have h := peek_transfer_readonly (fun _ _ => "h") "AB12CD"
  exact ⟨h.1 [], h.2.1 [] "x" (by decide), h.2.2.2 .absent⟩

/-- C1: claiming a code bound to an unclaimed transfer whose `to_app`
and `user_id` match the supplied arguments succeeds, returns the
transfer's amount, and persists `claimed = true` before returning;
afterwards every `claim_transfer` for the same code — with any
arguments, after any further sequence of operations — fails with
`AlreadyClaimed`. -/
theorem claim_transfer_exactly_once (hm : String → String → String)
    (ts : List (String × Transfer)) (code expect uid : String) (t : Transfer)
    (hget : dictGet code ts = some t) (hunclaimed : t.claimed = false)
    (hdest : t.to_app = expect) (huser : t.user_id = uid) :
    claim_transfer hm code expect uid (.payload ts (_sign hm ts)) =
      (.ok t.amount, _save hm ⟨dictSet code { t with claimed := true } ts⟩) ∧
    dictGet code (ledgerTransfers
        (claim_transfer hm code expect uid (.payload ts (_sign hm ts))).2) =
      some { t with claimed := true } ∧
    ∀ (ops : List Op) (expect' uid' : String),
      (claim_transfer hm code expect' uid'
          (runOps hm ops
            (claim_transfer hm code expect uid (.payload ts (_sign hm ts))).2)).1 =
        .error .alreadyClaimed := by
  have heq : claim_transfer hm code expect uid (.payload ts (_sign hm ts)) =
      (.ok t.amount, _save hm ⟨dictSet code { t with claimed := true } ts⟩) := by
    rw [claim_transfer_eq, hget]
    simp [hunclaimed, hdest, huser]
  have hstart : dictGet code (ledgerTransfers
      (claim_transfer hm code expect uid (.payload ts (_sign hm ts))).2) =
      some { t with claimed := true } := by
    rw [heq, ledgerTransfers_save]
    exact dictGet_dictSet_self _ _ _
  refine ⟨heq, hstart, ?_⟩
  intro ops e' u'
  obtain ⟨b, hb, hmono⟩ := dictGet_runOps hm ops _ code _ hstart
  have hb' : b = true := hmono rfl
  subst hb'
  obtain ⟨ts₁, hts₁⟩ : validFile hm (runOps hm ops
      (claim_transfer hm code expect uid (.payload ts (_sign hm ts))).2) :=
    validFile_runOps hm ops _ (by rw [heq]; exact ⟨_, rfl⟩)
  rw [hts₁] at hb ⊢
  simp only [ledgerTransfers] at hb
  rw [claim_transfer_eq, hb]
  rfl

theorem claim_transfer_exactly_once_witness :
    claim_transfer (fun _ _ => "h") "AB12CD" "fishing" "u1"
        (.payload [("AB12CD", ⟨"AB12CD", "casino", "fishing", "u1", 50, 0, false⟩)]
          (_sign (fun _ _ => "h")
            [("AB12CD", ⟨"AB12CD", "casino", "fishing", "u1", 50, 0, false⟩)])) =
      (.ok 50, _save (fun _ _ => "h")
        ⟨dictSet "AB12CD" ⟨"AB12CD", "casino", "fishing", "u1", 50, 0, true⟩
          [("AB12CD", ⟨"AB12CD", "casino", "fishing", "u1", 50, 0, false⟩)]⟩) ∧
    (claim_transfer (fun _ _ => "h") "AB12CD" "fishing" "u1"
        (runOps (fun _ _ => "h") []
          (claim_transfer (fun _ _ => "h") "AB12CD" "fishing" "u1"
            (.payload [("AB12CD", ⟨"AB12CD", "casino", "fishing", "u1", 50, 0, false⟩)]
              (_sign (fun _ _ => "h")
                [("AB12CD", ⟨"AB12CD", "casino", "fishing", "u1", 50, 0, false⟩)]))).2)).1 =
      .error .alreadyClaimed := by
  have h := claim_transfer_exactly_once (fun _ _ => "h")
    [("AB12CD", ⟨"AB12CD", "casino", "fishing", "u1", 50, 0, false⟩)]
    "AB12CD" "fishing" "u1" ⟨"AB12CD", "casino", "fishing", "u1", 50, 0, false⟩
    (by decide) rfl rfl rfl
  exact ⟨h.1, h.2.2 [] "fishing" "u1"⟩

/-- C5: `claim_transfer` returns the single integer amount (its success
value is one `int`, never a pair), so the tuple unpacking in
casino.py's auto-claim branch raises `TypeError` on every successful
claim; the exception is caught after the claim has already been
persisted, so the wallet credit in the `else` branch never executes:
the wallet is unchanged while the transfer is marked claimed. -/
theorem casino_autoclaim_never_credits (hm : String → String → String)
    (ts : List (String × Transfer)) (code uid : String) (t : Transfer) (wallet : Int)
    (hget : dictGet code ts = some t) (hunclaimed : t.claimed = false)
    (hdest : t.to_app = "casino") (huser : t.user_id = uid) :
    (∀ v : Int, unpack2 (.int v) = none) ∧
    (claim_transfer hm code "casino" uid (.payload ts (_sign hm ts))).1 = .ok t.amount ∧
    casinoAutoclaim hm code uid wallet (.payload ts (_sign hm ts)) =
      (wallet, _save hm ⟨dictSet code { t with claimed := true } ts⟩) ∧
    dictGet code (ledgerTransfers
        (casinoAutoclaim hm code uid wallet (.payload ts (_sign hm ts))).2) =
      some { t with claimed := true } := by
  have heq : claim_transfer hm code "casino" uid (.payload ts (_sign hm ts)) =
      (.ok t.amount, _save hm ⟨dictSet code { t with claimed := true } ts⟩) := by
    rw [claim_transfer_eq, hget]
    simp [hunclaimed, hdest, huser]
  have hauto : casinoAutoclaim hm code uid wallet (.payload ts (_sign hm ts)) =
      (wallet, _save hm ⟨dictSet code { t with claimed := true } ts⟩) := by
    unfold casinoAutoclaim
    rw [heq]
    rfl
  refine ⟨fun _ => rfl, by rw [heq], hauto, ?_⟩
  rw [hauto, ledgerTransfers_save]
  exact dictGet_dictSet_self _ _ _

theorem casino_autoclaim_never_credits_witness :
    unpack2 (.int 50) = none ∧
    casinoAutoclaim (fun _ _ => "h") "AB12CD" "u1" 100
        (.payload [("AB12CD", ⟨"AB12CD", "fishing", "casino", "u1", 50, 0, false⟩)]
          (_sign (fun _ _ => "h")
            [("AB12CD", ⟨"AB12CD", "fishing", "casino", "u1", 50, 0, false⟩)])) =
      (100, _save (fun _ _ => "h")
        ⟨dictSet "AB12CD" ⟨"AB12CD", "fishing", "casino", "u1", 50, 0, true⟩
          [("AB12CD", ⟨"AB12CD", "fishing", "casino", "u1", 50, 0, false⟩)]⟩) := by
  have h := casino_autoclaim_never_credits (fun _ _ => "h")
    [("AB12CD", ⟨"AB12CD", "fishing", "casino", "u1", 50, 0, false⟩)]
    "AB12CD" "u1" ⟨"AB12CD", "fishing", "casino", "u1", 50, 0, false⟩ 100
    (by decide) rfl rfl rfl
  exact ⟨h.1 50, h.2.2.1⟩

/-- C7: every operation preserves every existing ledger entry: no entry
is ever deleted, no field other than `claimed` ever changes, and a
claimed transfer never reverts — the per-transfer state machine is
`CREATED → CLAIMED` only; the same holds across any sequence of
operations. -/
theorem ledger_monotone (hm : String → String → String) (op : Op) (ops : List Op)
    (f : BankFile) (c : String) (t : Transfer)
    (h : dictGet c (ledgerTransfers f) = some t) :
    (∃ b : Bool,
      dictGet c (ledgerTransfers (applyOp hm op f)) = some { t with claimed := b } ∧
      (t.claimed = true → b = true)) ∧
    (∃ b : Bool,
      dictGet c (ledgerTransfers (runOps hm ops f)) = some { t with claimed := b } ∧
      (t.claimed = true → b = true)) :=
  ⟨dictGet_applyOp hm op f c t h, dictGet_runOps hm ops f c t h⟩

theorem ledger_monotone_witness :
    (∃ b : Bool,
      dictGet "AB12CD" (ledgerTransfers (applyOp (fun _ _ => "h") (.peek "AB12CD")
          (.payload [("AB12CD", ⟨"AB12CD", "casino", "fishing", "u1", 50, 0, true⟩)]
            (_sign (fun _ _ => "h")
              [("AB12CD", ⟨"AB12CD", "casino", "fishing", "u1", 50, 0, true⟩)])))) =
        some { (⟨"AB12CD", "casino", "fishing", "u1", 50, 0, true⟩ : Transfer) with
                 claimed := b } ∧
      ((⟨"AB12CD", "casino", "fishing", "u1", 50, 0, true⟩ : Transfer).claimed = true →
        b = true)) ∧
    (∃ b : Bool,
      dictGet "AB12CD" (ledgerTransfers (runOps (fun _ _ => "h") []
          (.payload [("AB12CD", ⟨"AB12CD", "casino", "fishing", "u1", 50, 0, true⟩)]
            (_sign (fun _ _ => "h")
              [("AB12CD", ⟨"AB12CD", "casino", "fishing", "u1", 50, 0, true⟩)])))) =
        some { (⟨"AB12CD", "casino", "fishing", "u1", 50, 0, true⟩ : Transfer) with
                 claimed := b } ∧
      ((⟨"AB12CD", "casino", "fishing", "u1", 50, 0, true⟩ : Transfer).claimed = true →
        b = true)) :=
  ledger_monotone (fun _ _ => "h") (.peek "AB12CD") []
    (.payload [("AB12CD", ⟨"AB12CD", "casino", "fishing", "u1", 50, 0, true⟩)]
      (_sign (fun _ _ => "h")
        [("AB12CD", ⟨"AB12CD", "casino", "fishing", "u1", 50, 0, true⟩)]))
    "AB12CD" ⟨"AB12CD", "casino", "fishing", "u1", 50, 0, true⟩ (by decide)

/-- C8: the stored signature is the HMAC, under the shared secret key,
of the canonical key-sorted serialization of the transfer map only (the
signature field is not an input to the signing function), so it is
invariant under reordering of a nodup-keyed transfer map; and `Save`
always recomputes the signature from the full transfer set and writes
the transfer set and signature together. -/
theorem sign_canonical_save_recomputes (hm : String → String → String)
    (ts ts' : List (String × Transfer)) (hperm : ts.Perm ts')
    (hnd : (ts.map Prod.fst).Nodup) :
    _sign hm ts = _sign hm ts' ∧
    _sign hm ts = hm SECRET_KEY (canonicalJson ts) ∧
    ∀ d : BankData, _save hm d = .payload d.transfers (_sign hm d.transfers) :=
  ⟨_sign_perm hm hperm hnd, rfl, fun _ => rfl⟩

theorem sign_canonical_save_recomputes_witness :
    _sign (fun _ _ => "h")
        [("AA", ⟨"AA", "casino", "fishing", "u1", 1, 0, false⟩),
         ("BB", ⟨"BB", "casino", "fishing", "u2", 2, 0, false⟩)] =
      _sign (fun _ _ => "h")
        [("BB", ⟨"BB", "casino", "fishing", "u2", 2, 0, false⟩),
         ("AA", ⟨"AA", "casino", "fishing", "u1", 1, 0, false⟩)] ∧
    _save (fun _ _ => "h") ⟨[]⟩ =
      .payload [] (_sign (fun _ _ => "h") []) := by
  have h := sign_canonical_save_recomputes (fun _ _ => "h")
    [("AA", ⟨"AA", "casino", "fishing", "u1", 1, 0, false⟩),
     ("BB", ⟨"BB", "casino", "fishing", "u2", 2, 0, false⟩)]
    [("BB", ⟨"BB", "casino", "fishing", "u2", 2, 0, false⟩),
     ("AA", ⟨"AA", "casino", "fishing", "u1", 1, 0, false⟩)]
    (List.Perm.swap ("BB", (⟨"BB", "casino", "fishing", "u2", 2, 0, false⟩ : Transfer))
      ("AA", (⟨"AA", "casino", "fishing", "u1", 1, 0, false⟩ : Transfer))
      ([] : List (String × Transfer)))
    (by decide)
  exact ⟨h.1, h.2.2 ⟨[]⟩⟩

/-- C4: for every positive integer amount, whenever the ledger loads
and the modelled random stream offers a fresh candidate within the
loop's fuel, `create_transfer` succeeds with a six-character upper-case
hexadecimal code not previously present in the ledger — the first
fresh candidate, regenerating past colliding ones — and immediately
afterwards `peek_transfer` on that code returns an unclaimed transfer
carrying exactly the supplied `amount`, `from_app`, `to_app` and
`user_id`. -/
theorem create_transfer_postcondition (hm : String → String → String)
    (bytes : Nat → ByteTriple) (fuel : Nat) (user_id : String) (a : Int)
    (from_app to_app : String) (now : Nat) (file : BankFile)
    (ts : List (String × Transfer)) (file₁ : BankFile)
    (hload : _load hm file = .ok (⟨ts⟩, file₁)) (hpos : 0 < a)
    (hfresh : ∃ i, i < fuel ∧ dictGet (tokenHexUpper (bytes i)) ts = none) :
    ∃ code,
      (create_transfer hm bytes fuel user_id (.int a) from_app to_app now file).1 =
        some (.ok code) ∧
      code.length = 6 ∧
      (∀ ch ∈ code.data, isUpperHexChar ch = true) ∧
      dictGet code ts = none ∧
      (∃ j, j < fuel ∧ code = tokenHexUpper (bytes j) ∧
        ∀ i, i < j → dictGet (tokenHexUpper (bytes i)) ts ≠ none) ∧
      peek_transfer hm code
          (create_transfer hm bytes fuel user_id (.int a) from_app to_app now file).2 =
        (.ok (some { code := code, from_app := from_app, to_app := to_app,
                     user_id := user_id, amount := a, timestamp := now,
                     claimed := false }),
         (create_transfer hm bytes fuel user_id (.int a) from_app to_app now file).2) := by
  classical
  obtain ⟨i₀, hi₀, hP₀⟩ := hfresh
  have hex : ∃ i, dictGet (tokenHexUpper (bytes i)) ts = none := ⟨i₀, hP₀⟩
  have hPj : dictGet (tokenHexUpper (bytes (Nat.find hex))) ts = none := Nat.find_spec hex
  have hjlt : Nat.find hex < fuel := lt_of_le_of_lt (Nat.find_min' hex hP₀) hi₀
  have hmin : ∀ i, i < Nat.find hex → dictGet (tokenHexUpper (bytes i)) ts ≠ none :=
    fun i hi => Nat.find_min hex hi
  have hgen : genCode bytes ts 0 fuel = some (tokenHexUpper (bytes (Nat.find hex))) :=
    genCode_finds bytes ts fuel 0 (Nat.find hex) (Nat.zero_le _) (by omega) hPj
      (fun i _ hi => hmin i hi)
  have hval : ¬ ((Amount.int a).isInt = false ∨ (Amount.int a).toInt ≤ 0) := by
    simp [Amount.isInt, Amount.toInt]
    omega
  have hcreate : create_transfer hm bytes fuel user_id (.int a) from_app to_app now file =
      (some (.ok (tokenHexUpper (bytes (Nat.find hex)))),
       _save hm ⟨dictSet (tokenHexUpper (bytes (Nat.find hex)))
         { code := tokenHexUpper (bytes (Nat.find hex)), from_app := from_app,
           to_app := to_app, user_id := user_id, amount := a, timestamp := now,
           claimed := false } ts⟩) := by
    unfold create_transfer
    rw [if_neg hval, hload]
    dsimp only
    rw [hgen]
    rfl
  refine ⟨tokenHexUpper (bytes (Nat.find hex)), by rw [hcreate], tokenHexUpper_length _,
    tokenHexUpper_chars _, hPj, ⟨Nat.find hex, hjlt, rfl, hmin⟩, ?_⟩
  rw [hcreate]
  dsimp only
  unfold _save peek_transfer
  rw [_load_payload_ok hm _ _ rfl]
  dsimp only
  rw [dictGet_dictSet_self]

theorem create_transfer_postcondition_witness :
    0 < (50 : Int) ∧
    ∃ code,
      (create_transfer (fun _ _ => "h") (fun _ => (0, 0, 0)) 1 "u1" (.int 50)
          "casino" "fishing" 7 .absent).1 = some (.ok code) ∧
      code.length = 6 ∧
      (∀ ch ∈ code.data, isUpperHexChar ch = true) ∧
      dictGet code [] = none ∧
      (∃ j, j < 1 ∧ code = tokenHexUpper ((fun _ => ((0 : Fin 256), (0 : Fin 256), (0 : Fin 256))) j) ∧
        ∀ i, i < j →
          dictGet (tokenHexUpper ((fun _ => ((0 : Fin 256), (0 : Fin 256), (0 : Fin 256))) i)) [] ≠ none) ∧
      peek_transfer (fun _ _ => "h") code
          (create_transfer (fun _ _ => "h") (fun _ => (0, 0, 0)) 1 "u1" (.int 50)
            "casino" "fishing" 7 .absent).2 =
        (.ok (some { code := code, from_app := "casino", to_app := "fishing",
                     user_id := "u1", amount := 50, timestamp := 7,
                     claimed := false }),
         (create_transfer (fun _ _ => "h") (fun _ => (0, 0, 0)) 1 "u1" (.int 50)
           "casino" "fishing" 7 .absent).2) :=
  ⟨by decide,
   create_transfer_postcondition (fun _ _ => "h") (fun _ => (0, 0, 0)) 1 "u1" 50
     "casino" "fishing" 7 .absent [] (.payload [] (_sign (fun _ _ => "h") []))
     (_load_absent (fun _ _ => "h")) (by decide) ⟨0, by decide, rfl⟩⟩
